import Mathlib

/-!
Shallow embedding of `src/ovh_reconciler.py` (qdii/ovh-reconciler) and proofs
checking the natural-language specification's claims against it.

The embedding follows the Python source closely:
  * `RecordType`, `Record`, `Record.eq`, `Record.hashKey` embed the `Type`
    enum and the `Record` NamedTuple with its `__eq__` / `__hash__`
    overrides (source lines 76-146).  Python truthiness of `int | None`
    (`None` and `0` are falsy) is embedded by `pyTruthy`.
  * Python `set` membership compares hashes first and calls `__eq__` only on
    a hash match, so sets are embedded as lists with `pyMem`/`pyDiff`/
    `pyUnion` reproducing exactly that discipline.
  * The four record regexes (source lines 59-70) are embedded as executable
    character-level matchers that reproduce Python `re.fullmatch` semantics,
    including the greedy-with-backtracking split between the subdomain and
    ttl groups.
-/

/-! ## The data model: Type enum, ALLOWED_TYPES, Record (source lines 76-146) -/

/-- The `Type` enum of the source (15 DNS record types).  `Type` is a Lean
keyword, so the Lean name is `RecordType`. -/
inductive RecordType where
  | A | AAAA | CNAME | DKIM | DMARC | DNAME | LOC | MX
  | NAPTR | NS | SPF | SRV | SSHFP | TLSA | TXT
deriving DecidableEq, Repr

/-- Source: `ALLOWED_TYPES = [Type.A, Type.AAAA, Type.CNAME, Type.TXT]`. -/
def ALLOWED_TYPES : List RecordType := [.A, .AAAA, .CNAME, .TXT]

/-- The `Record` NamedTuple of the source.  `ttl : int | None` becomes
`Option Int`; Python integers are unbounded, hence `Int`. -/
structure Record where
  type : RecordType
  subdomain : String
  target : String
  id : Int
  ttl : Option Int
deriving DecidableEq, Repr

/-- Python truthiness of an `int | None` value: `None` and `0` are falsy,
every other integer is truthy. -/
def pyTruthy : Option Int → Bool
  | none => false
  | some t => !(t == 0)

/-- Source `Record.__eq__` (lines 132-142): type, subdomain and target must
match exactly; the ttl test `self.ttl and other.ttl and self.ttl != other.ttl`
only fires when both ttls are truthy (present and nonzero) and different.
`id` is never read. -/
def Record.eq (r s : Record) : Bool :=
  if r.type ≠ s.type then false
  else if r.subdomain ≠ s.subdomain then false
  else if r.target ≠ s.target then false
  else if pyTruthy r.ttl && pyTruthy s.ttl && decide (r.ttl ≠ s.ttl) then false
  else true

/-- Source expression `self.ttl or 0` used by `__hash__`: `None` and `0`
both give `0`. -/
def Record.ttlOrZero (r : Record) : Int :=
  match r.ttl with
  | none => 0
  | some t => t

/-- Source `Record.__hash__` (lines 144-146):
`hash((self.type, self.subdomain, self.target, self.ttl or 0))`.  The hash of
that tuple is embedded by the tuple itself (CPython hashes distinct small
tuples of this shape to distinct values; all the development needs is that
equal keys hash equal and that the hash depends on nothing else). -/
def Record.hashKey (r : Record) : RecordType × String × String × Int :=
  (r.type, r.subdomain, r.target, r.ttlOrZero)

/-! ## Python set semantics

CPython set lookup probes the hash table by `hash` and calls `__eq__` only on
entries whose stored hash equals the probe's hash.  So membership of `x` in a
set holding `ys` means: some `y` with `hash x = hash y` and `x == y`. -/

/-- One CPython set-lookup comparison: hashes equal, then `__eq__`. -/
def pyEquiv (x y : Record) : Bool :=
  decide (x.hashKey = y.hashKey) && Record.eq x y

/-- CPython `x in s` for a set embedded as the list of its elements. -/
def pyMem (x : Record) (s : List Record) : Bool :=
  s.any (fun y => pyEquiv x y)

/-- CPython `s.difference(t)`: the elements of `s` not in `t`. -/
def pyDiff (s t : List Record) : List Record :=
  s.filter (fun x => !(pyMem x t))

/-- CPython `s.union(t)`: `s` plus the elements of `t` not already in `s`. -/
def pyUnion (s t : List Record) : List Record :=
  s ++ t.filter (fun x => !(pyMem x s))

/-- Source test `r.type not in ALLOWED_TYPES` used by `reconcile`. -/
def recAllowed (r : Record) : Bool :=
  ALLOWED_TYPES.contains r.type

/-- Source `reconcile` (lines 357-367): `to_add = intent.difference(current)`,
`to_remove = current.difference(intent)`; `add_record` is called for each
allowed-type record of `to_add` and `delete_record` for each allowed-type
record of `to_remove`.  The result pair is (records passed to `add_record`,
records passed to `delete_record`). -/
def reconcile (intent current : List Record) : List Record × List Record :=
  ((pyDiff intent current).filter recAllowed,
   (pyDiff current intent).filter recAllowed)

/-- A gateway operation issued by `reconcile`. -/
inductive ApiCall where
  | create (r : Record)
  | delete (r : Record)
deriving DecidableEq, Repr

/-- The sequence of gateway operations `reconcile` issues: creates for the
allowed part of `to_add`, then deletes for the allowed part of `to_remove`. -/
def reconcileCalls (intent current : List Record) : List ApiCall :=
  ((reconcile intent current).1.map ApiCall.create) ++
    ((reconcile intent current).2.map ApiCall.delete)

/-! ## The provider-facing operations and dry-run mode (lines 283-302, 370-374) -/

/-- An HTTP call the script can make against the OVH API. -/
inductive ProviderCall where
  | postRecord (t : RecordType) (sub : String) (ttl : Option Int) (target : String)
  | deleteRecord (id : Int)
  | refreshZone
deriving DecidableEq, Repr

/-- Source `add_record` (lines 283-294): under `--dry_run` it returns `0`
without contacting OVH; otherwise it POSTs the record's fields and returns
the id OVH assigns (embedded as the parameter `newId`). -/
def add_record (dryRun : Bool) (newId : Int) (r : Record) : Int × List ProviderCall :=
  if dryRun then (0, [])
  else (newId, [ProviderCall.postRecord r.type r.subdomain r.ttl r.target])

/-- Source `delete_record` (lines 297-302): under `--dry_run` it issues no
call; otherwise it DELETEs the record by id. -/
def delete_record (dryRun : Bool) (r : Record) : List ProviderCall :=
  if dryRun then []
  else [ProviderCall.deleteRecord r.id]

/-- Source `apply` (lines 370-374): under `--dry_run` it issues no call;
otherwise it POSTs the zone refresh. -/
def applyZone (dryRun : Bool) : List ProviderCall :=
  if dryRun then []
  else [ProviderCall.refreshZone]

/-! ## The line grammar (source lines 59-70)

Character classes of the regexes.  Python `\s` on these zone-file lines means
the six ASCII whitespace characters space, tab, newline, carriage return,
vertical tab and form feed. -/

/-- Python `\s` (ASCII): the whitespace class used by every record regex. -/
def wsChar (c : Char) : Bool :=
  c = ' ' || c = '\t' || c = '\n' || c = '\r' || c = Char.ofNat 11 || c = Char.ofNat 12

/-- The class `[-.@|a-zA-Z0-9_]` of `RE_SUBDOMAIN` and `RE_TARGET`. -/
def subChar (c : Char) : Bool :=
  c = '-' || c = '.' || c = '@' || c = '|' || c.isAlpha || c.isDigit || c = '_'

/-- The class `[a-f0-9]` of `RE_IPV6` (lowercase hex only: no `re.IGNORECASE`). -/
def hexLowerChar (c : Char) : Bool :=
  c.isDigit || ('a' ≤ c && c ≤ 'f')

/-- The class `[a-f0-9:]` of `RE_IPV6`. -/
def hexColonChar (c : Char) : Bool :=
  hexLowerChar c || c = ':'

/-- Python `int(...)` on the digit-only ttl capture. -/
def digitsToNat (l : List Char) : Nat :=
  l.foldl (fun n c => 10 * n + (c.toNat - '0'.toNat)) 0

/-- Match a literal string of the regex (such as `IN`, `A`, `CNAME` or a
dot) at the head of the input, returning the rest. -/
def expectStr : List Char → List Char → Option (List Char)
  | [], l => some l
  | _ :: _, [] => none
  | c :: cs, x :: xs => if x = c then expectStr cs xs else none

/-- One `\d{1,3}` group of `RE_IPV4` followed by a forced stop: the maximal
digit run must have length 1 to 3 (a longer run can never be completed,
because the next regex token is `.` or the end). -/
def ipv4Group (l : List Char) : Option (List Char) :=
  let d := l.takeWhile Char.isDigit
  if d.length = 0 ∨ 4 ≤ d.length then none else some (l.dropWhile Char.isDigit)

/-- Fullmatch of `RE_IPV4 = \d{1,3}\.\d{1,3}\.\d{1,3}\.\d{1,3}`. -/
def isIPv4 (l : List Char) : Bool :=
  decide
    (((ipv4Group l).bind (expectStr ['.'])).bind
        (fun r1 =>
          ((ipv4Group r1).bind (expectStr ['.'])).bind
            (fun r2 =>
              ((ipv4Group r2).bind (expectStr ['.'])).bind
                (fun r3 => ipv4Group r3))) =
      some [])

/-- Fullmatch of `RE_IPV6 = ([a-f0-9:]+:+)+[a-f0-9]+`.  The language of
`[a-f0-9:]+:+` is the set of strings over `[a-f0-9:]` of length at least two
that end in a colon; that set is closed under concatenation, so the outer `+`
adds nothing, and the final `[a-f0-9]+` is the nonempty hex run after the last
colon.  Hence a string fully matches iff every character is lowercase hex or a
colon, some colon occurs at an index of at least one, and the last character
is hex (so the part after the last colon is nonempty). -/
def isIPv6 (l : List Char) : Bool :=
  match l with
  | [] => false
  | _ :: rest =>
    l.all hexColonChar && rest.contains ':' &&
      (match l.getLast? with
       | some c => hexLowerChar c
       | none => false)

/-- The three named captures shared by the four record regexes: `subdomain`,
`ttl`, and the type-specific value (`ipv4` / `ipv6` / `txt1`+`txt2` /
`target`). -/
structure RawMatch where
  sub : List Char
  ttl : List Char
  value : List Char
deriving DecidableEq, Repr

/-- Consume `\s* RE_TTL \s* IN` (the A/AAAA shape, where no whitespace is
required around the ttl).  Each scan is forced: whitespace, digits and the
literal `I` are pairwise disjoint, so Python's backtracking can never pick a
shorter run than the maximal one.  Returns the ttl capture and the rest of
the line after `IN`. -/
def midLax (l : List Char) : Option (List Char × List Char) :=
  let l1 := l.dropWhile wsChar
  let b := l1.takeWhile Char.isDigit
  let l2 := l1.dropWhile Char.isDigit
  let l3 := l2.dropWhile wsChar
  match expectStr ['I', 'N'] l3 with
  | some r => some (b, r)
  | none => none

/-- Consume `\s* RE_TTL \s+ IN` (the CNAME/TXT shape).  With a nonempty ttl
capture the runs are forced as in `midLax` and the whitespace after the ttl
must be nonempty; with an empty ttl capture Python splits one whitespace run
between `\s*` and `\s+`, which succeeds exactly when that run is nonempty. -/
def midStrict (l : List Char) : Option (List Char × List Char) :=
  let a := l.takeWhile wsChar
  let l1 := l.dropWhile wsChar
  let b := l1.takeWhile Char.isDigit
  let l2 := l1.dropWhile Char.isDigit
  let c := l2.takeWhile wsChar
  let l3 := l2.dropWhile wsChar
  match expectStr ['I', 'N'] l3 with
  | some r => if (if b.isEmpty then a.isEmpty else c.isEmpty) then none else some (b, r)
  | none => none

/-- Consume `\s+ A \s+ RE_IPV4 \s*$`.  Because the value's characters are
never whitespace and the pattern ends with `\s*$`, the value capture must be
exactly the line's final maximal non-whitespace run. -/
def tailA (l : List Char) : Option (List Char) :=
  let w := l.takeWhile wsChar
  let l1 := l.dropWhile wsChar
  if w.isEmpty then none
  else
    match expectStr ['A'] l1 with
    | some l2 =>
      let w2 := l2.takeWhile wsChar
      let l3 := l2.dropWhile wsChar
      if w2.isEmpty then none
      else
        let tok := l3.takeWhile (fun c => !wsChar c)
        let rest := l3.dropWhile (fun c => !wsChar c)
        if isIPv4 tok && rest.all wsChar then some tok else none
    | none => none

/-- Consume `\s+ AAAA \s+ RE_IPV6 \s*$` (same forced structure as `tailA`). -/
def tailAAAA (l : List Char) : Option (List Char) :=
  let w := l.takeWhile wsChar
  let l1 := l.dropWhile wsChar
  if w.isEmpty then none
  else
    match expectStr ['A', 'A', 'A', 'A'] l1 with
    | some l2 =>
      let w2 := l2.takeWhile wsChar
      let l3 := l2.dropWhile wsChar
      if w2.isEmpty then none
      else
        let tok := l3.takeWhile (fun c => !wsChar c)
        let rest := l3.dropWhile (fun c => !wsChar c)
        if isIPv6 tok && rest.all wsChar then some tok else none
    | none => none

/-- Consume `\s+ CNAME \s+ RE_TARGET \s*$`.  `RE_TARGET` may capture the
empty string; its class is disjoint from whitespace, so the capture is the
maximal `[-.@|a-zA-Z0-9_]` run after the whitespace and the remainder must be
all whitespace. -/
def tailCNAME (l : List Char) : Option (List Char) :=
  let w := l.takeWhile wsChar
  let l1 := l.dropWhile wsChar
  if w.isEmpty then none
  else
    match expectStr ['C', 'N', 'A', 'M', 'E'] l1 with
    | some l2 =>
      let w2 := l2.takeWhile wsChar
      let l3 := l2.dropWhile wsChar
      if w2.isEmpty then none
      else
        let tok := l3.takeWhile subChar
        let rest := l3.dropWhile subChar
        if rest.all wsChar then some tok else none
    | none => none

/-- The value alternation of `RE_TXT`:
`(?:"(?P<txt1>[^"]*)"|\(\s*"(?P<txt2>[^"]*)"\s*\))` followed by `\s*$`.
The two branches start with distinct literals, so no backtracking between
them, and `[^"]*` is forced to stop at the next quote. -/
def txtQuoted (l : List Char) : Option (List Char) :=
  match expectStr ['"'] l with
  | some l1 =>
    let body := l1.takeWhile (fun c => c ≠ '"')
    (match expectStr ['"'] (l1.dropWhile (fun c => c ≠ '"')) with
     | some rest => if rest.all wsChar then some body else none
     | none => none)
  | none =>
    match expectStr ['('] l with
    | some l1 =>
      (match expectStr ['"'] (l1.dropWhile wsChar) with
       | some l3 =>
         let body := l3.takeWhile (fun c => c ≠ '"')
         (match expectStr ['"'] (l3.dropWhile (fun c => c ≠ '"')) with
          | some l4 =>
            (match expectStr [')'] (l4.dropWhile wsChar) with
             | some rest => if rest.all wsChar then some body else none
             | none => none)
          | none => none)
       | none => none)
    | none => none

/-- Consume `\s+ TXT \s+ RE_TXT \s*$`. -/
def tailTXT (l : List Char) : Option (List Char) :=
  let w := l.takeWhile wsChar
  let l1 := l.dropWhile wsChar
  if w.isEmpty then none
  else
    match expectStr ['T', 'X', 'T'] l1 with
    | some l2 =>
      let w2 := l2.takeWhile wsChar
      if w2.isEmpty then none else txtQuoted (l2.dropWhile wsChar)
    | none => none

/-- Python's greedy backtracking over the subdomain capture: the capture is a
prefix of the maximal `RE_SUBDOMAIN` run, tried longest first; the first
length whose continuation succeeds wins. -/
def trySub (f : Nat → Option RawMatch) : Nat → Option RawMatch
  | 0 => f 0
  | k + 1 =>
    match f (k + 1) with
    | some m => some m
    | none => trySub f (k + 1 - 1)

/-- One attempt of an `\s*IN`-shaped record regex (`RE_RECORD_A` /
`RE_RECORD_AAAA`) with the subdomain capture set to the first `k` characters
of the maximal subdomain run. -/
def laxStep (tail : List Char → Option (List Char)) (l0 : List Char) (k : Nat) :
    Option RawMatch :=
  match midLax (l0.drop k) with
  | some (b, r) =>
    (match tail r with
     | some v => some ⟨l0.take k, b, v⟩
     | none => none)
  | none => none

/-- Fullmatch of `RE_RECORD_A` against a line:
`^\s* RE_SUBDOMAIN \s* RE_TTL \s* IN \s+ A \s+ RE_IPV4 \s*$`. -/
def matchA (line : List Char) : Option RawMatch :=
  let l0 := line.dropWhile wsChar
  trySub (laxStep tailA l0) (l0.takeWhile subChar).length

/-- Fullmatch of `RE_RECORD_AAAA` against a line. -/
def matchAAAA (line : List Char) : Option RawMatch :=
  let l0 := line.dropWhile wsChar
  trySub (laxStep tailAAAA l0) (l0.takeWhile subChar).length

/-- One attempt of an `\s+IN`-shaped record regex (`RE_RECORD_CNAME` /
`RE_RECORD_TXT`) with the subdomain capture set to the first `k` characters
of the maximal subdomain run. -/
def strictStep (tail : List Char → Option (List Char)) (l0 : List Char) (k : Nat) :
    Option RawMatch :=
  match midStrict (l0.drop k) with
  | some (b, r) =>
    (match tail r with
     | some v => some ⟨l0.take k, b, v⟩
     | none => none)
  | none => none

/-- Fullmatch of a `\s+IN`-shaped record regex (`RE_RECORD_CNAME` /
`RE_RECORD_TXT`) with the given tail matcher.  After the longest-first
subdomain attempts fail, one more Python backtracking branch remains: when
the line starts with whitespace, the leading `\s*` can give characters back
so that part of that whitespace serves as the mandatory `\s+` before `IN`,
with empty subdomain and ttl captures. -/
def matchStrictShape (tail : List Char → Option (List Char)) (line : List Char) :
    Option RawMatch :=
  let w0 := line.takeWhile wsChar
  let l0 := line.dropWhile wsChar
  match trySub (strictStep tail l0) (l0.takeWhile subChar).length with
  | some m => some m
  | none =>
    if w0.isEmpty then none
    else
      match expectStr ['I', 'N'] l0 with
      | some r =>
        (match tail r with
         | some v => some ⟨[], [], v⟩
         | none => none)
      | none => none

/-- Fullmatch of `RE_RECORD_CNAME`:
`^\s* RE_SUBDOMAIN \s* RE_TTL \s+ IN \s+ CNAME \s+ RE_TARGET \s*$`. -/
def matchCNAME (line : List Char) : Option RawMatch :=
  matchStrictShape tailCNAME line

/-- Fullmatch of `RE_RECORD_TXT`:
`^\s* RE_SUBDOMAIN \s* RE_TTL \s+ IN \s+ TXT \s+ RE_TXT \s*$`. -/
def matchTXT (line : List Char) : Option RawMatch :=
  matchStrictShape tailTXT line

/-! ## The parse functions (source lines 149-259)

The source reads the ttl as `result.group('ttl') or _DEFAULT_TTL.value`
followed by `if ttl: ttl = int(ttl)`.  `_DEFAULT_TTL` is the `--default_ttl`
flag (an integer, default 0); the spec's configuration surface treats the
default TTL as optional, so it is embedded as `Option Int`, with `none`
("absent") flowing through the same truthiness logic: an empty capture with
an absent default leaves the record's ttl absent. -/

/-- The ttl resolution `ttl = group or default; if ttl: ttl = int(ttl)`:
a nonempty capture is converted with `int`; an empty capture yields the
default unchanged (a default of `0` is falsy, skips the `int` call and stays
the integer `0`). -/
def resolveTtl (g : List Char) (d : Option Int) : Option Int :=
  if g.isEmpty then d else some (digitsToNat g : Int)

/-- Source `parse_a_record` (lines 149-168). -/
def parse_a_record (line : String) (d : Option Int) : Option Record :=
  match matchA line.data with
  | none => none
  | some m =>
    some { type := .A, subdomain := ⟨m.sub⟩, target := ⟨m.value⟩,
           ttl := resolveTtl m.ttl d, id := 0 }

/-- Source `parse_aaaa_record` (lines 171-190). -/
def parse_aaaa_record (line : String) (d : Option Int) : Option Record :=
  match matchAAAA line.data with
  | none => none
  | some m =>
    some { type := .AAAA, subdomain := ⟨m.sub⟩, target := ⟨m.value⟩,
           ttl := resolveTtl m.ttl d, id := 0 }

/-- Source `parse_txt_record` (lines 193-213); the target is
`(txt1 or '') + (txt2 or '')`, i.e. whichever quoted body matched. -/
def parse_txt_record (line : String) (d : Option Int) : Option Record :=
  match matchTXT line.data with
  | none => none
  | some m =>
    some { type := .TXT, subdomain := ⟨m.sub⟩, target := ⟨m.value⟩,
           ttl := resolveTtl m.ttl d, id := 0 }

/-- Source `parse_cname_record` (lines 216-243), including the guard that
rejects the whole line when the subdomain or the target fully matches
`RE_IPV4` or `RE_IPV6`. -/
def parse_cname_record (line : String) (d : Option Int) : Option Record :=
  match matchCNAME line.data with
  | none => none
  | some m =>
    if isIPv4 m.sub || isIPv6 m.sub || isIPv4 m.value || isIPv6 m.value then none
    else
      some { type := .CNAME, subdomain := ⟨m.sub⟩, target := ⟨m.value⟩,
             ttl := resolveTtl m.ttl d, id := 0 }

/-- The substitution step of `parse_line`: `if my_ip:` (an empty string is
falsy) `line = line.replace('{PUBLIC_IP}', my_ip)`. -/
def substLine (line : String) (my_ip : Option String) : String :=
  match my_ip with
  | none => line
  | some ip => if ip.isEmpty then line else line.replace "{PUBLIC_IP}" ip

/-- Source `parse_line` (lines 246-259): substitute the public IP, then try
the A, AAAA, TXT and CNAME grammars in that order; the first match wins. -/
def parse_line (line : String) (my_ip : Option String) (d : Option Int) :
    Option Record :=
  let l := substLine line my_ip
  match parse_a_record l d with
  | some r => some r
  | none =>
    match parse_aaaa_record l d with
    | some r => some r
    | none =>
      match parse_txt_record l d with
      | some r => some r
      | none => parse_cname_record l d

/-! ## The hash/equality interplay -/

/-- Python truthiness, falsy side: `None` or `0`. -/
theorem pyTruthy_false_iff (o : Option Int) :
    pyTruthy o = false ↔ o = none ∨ o = some 0 := by
  cases o <;> simp [pyTruthy]

/-- Equal hash keys force `__eq__` to accept: the key determines type,
subdomain and target, and equal `ttl or 0` values leave the truthy-ttl test
nothing to reject. -/
theorem hashKey_eq_implies_eq (x y : Record) (h : x.hashKey = y.hashKey) :
    Record.eq x y = true := by
  have h1 : x.type = y.type := congrArg (fun p => p.1) h
  have h2 : x.subdomain = y.subdomain := congrArg (fun p => p.2.1) h
  have h3 : x.target = y.target := congrArg (fun p => p.2.2.1) h
  have h4 : x.ttlOrZero = y.ttlOrZero := congrArg (fun p => p.2.2.2) h
  unfold Record.eq
  rw [if_neg (by simp [h1]), if_neg (by simp [h2]), if_neg (by simp [h3]), if_neg]
  intro hc
  simp only [Bool.and_eq_true, decide_eq_true_eq] at hc
  obtain ⟨⟨hx, hy⟩, hne⟩ := hc
  cases hxt : x.ttl with
  | none => rw [hxt] at hx; simp [pyTruthy] at hx
  | some a =>
    cases hyt : y.ttl with
    | none => rw [hyt] at hy; simp [pyTruthy] at hy
    | some b =>
      simp only [Record.ttlOrZero, hxt, hyt] at h4
      rw [hxt, hyt, h4] at hne
      exact hne rfl

/-- CPython set membership reduces to hash-key membership for this record
type: the `__eq__` call after a hash hit always succeeds. -/
theorem pyMem_iff (x : Record) (s : List Record) :
    pyMem x s = true ↔ ∃ y ∈ s, x.hashKey = y.hashKey := by
  unfold pyMem pyEquiv
  rw [List.any_eq_true]
  constructor
  · rintro ⟨y, hy, hxy⟩
    simp only [Bool.and_eq_true, decide_eq_true_eq] at hxy
    exact ⟨y, hy, hxy.1⟩
  · rintro ⟨y, hy, hk⟩
    refine ⟨y, hy, ?_⟩
    simp [hk, hashKey_eq_implies_eq x y hk]

/-! ## Claims about Record equality and hashing -/

/-- Explicit record values used by the concrete claims below. -/
def recTtl0 : Record := ⟨.A, "foo", "10.0.0.1", 0, some 0⟩

def recTtl42 : Record := ⟨.A, "foo", "10.0.0.1", 0, some 42⟩

def recNoTtl : Record := ⟨.A, "foo", "10.0.0.1", 5, none⟩

/-- The equality relation exactly as claim C1 words it: ttl compared only
when both sides are present, wildcard only for an absent ttl. -/
def specEqC1 (r s : Record) : Prop :=
  r.type = s.type ∧ r.subdomain = s.subdomain ∧ r.target = s.target ∧
    (r.ttl = none ∨ s.ttl = none ∨ r.ttl = s.ttl)

instance (r s : Record) : Decidable (specEqC1 r s) := by
  unfold specEqC1; infer_instance

/-- The equality relation with the correction the code forces: a ttl equal to
`0` is falsy in Python, so `Record.__eq__` also skips the comparison for a
present ttl of `0`, not only for an absent one. -/
def specEqC1Amended (r s : Record) : Prop :=
  r.type = s.type ∧ r.subdomain = s.subdomain ∧ r.target = s.target ∧
    (r.ttl = none ∨ r.ttl = some 0 ∨ s.ttl = none ∨ s.ttl = some 0 ∨ r.ttl = s.ttl)

instance (r s : Record) : Decidable (specEqC1Amended r s) := by
  unfold specEqC1Amended; infer_instance

/-- Claim C1, counterexample: two records with the same type, subdomain and
target whose ttls are both present (`0` and `42`) and numerically different
compare equal under `Record.__eq__`, though the claimed relation (numeric
equality required whenever both ttls are present) rejects exactly this
pair. -/
theorem c1_ttl_zero_wildcard_counterexample :
    Record.eq recTtl0 recTtl42 = true ∧ ¬ specEqC1 recTtl0 recTtl42 := by
  decide

/-- Claim C1 as amended: `Record.__eq__` accepts exactly when type, subdomain
and target match and the ttl comparison passes, where the comparison is
skipped when either side's ttl is absent or zero (Python falsy) and requires
numeric equality when both are present and nonzero; the id field never plays
a part, and a ttl of 10 still differs from a ttl of 20. -/
theorem c1_record_equality_amended :
    (∀ r s : Record, Record.eq r s = true ↔ specEqC1Amended r s) ∧
    (∀ (t : RecordType) (sub tgt : String) (i j : Int),
      Record.eq ⟨t, sub, tgt, i, some 10⟩ ⟨t, sub, tgt, j, some 20⟩ = false) := by
  constructor
  · intro r s
    unfold Record.eq specEqC1Amended
    split_ifs with h1 h2 h3 h4
    · exact iff_of_false (by simp) (fun h => h1 h.1)
    · exact iff_of_false (by simp) (fun h => h2 h.2.1)
    · exact iff_of_false (by simp) (fun h => h3 h.2.2.1)
    · refine iff_of_false (by simp) (fun h => ?_)
      simp only [Bool.and_eq_true, decide_eq_true_eq] at h4
      obtain ⟨⟨hx, hy⟩, hne⟩ := h4
      obtain ⟨a, ha, ha0⟩ : ∃ a, r.ttl = some a ∧ a ≠ 0 := by
        cases hrt : r.ttl with
        | none => rw [hrt] at hx; simp [pyTruthy] at hx
        | some a =>
          refine ⟨a, rfl, ?_⟩
          rw [hrt] at hx
          simpa [pyTruthy] using hx
      obtain ⟨b, hb, hb0⟩ : ∃ b, s.ttl = some b ∧ b ≠ 0 := by
        cases hst : s.ttl with
        | none => rw [hst] at hy; simp [pyTruthy] at hy
        | some b =>
          refine ⟨b, rfl, ?_⟩
          rw [hst] at hy
          simpa [pyTruthy] using hy
      rcases h.2.2.2 with h' | h' | h' | h' | h'
      · rw [h'] at ha; exact Option.noConfusion ha
      · rw [h'] at ha; injection ha with h0; exact ha0 h0.symm
      · rw [h'] at hb; exact Option.noConfusion hb
      · rw [h'] at hb; injection hb with h0; exact hb0 h0.symm
      · exact hne h'
    · refine iff_of_true rfl ⟨not_not.mp h1, not_not.mp h2, not_not.mp h3, ?_⟩
      by_cases hr : pyTruthy r.ttl = false
      · rcases (pyTruthy_false_iff r.ttl).mp hr with h | h
        · exact Or.inl h
        · exact Or.inr (Or.inl h)
      have hr' : pyTruthy r.ttl = true := by
        revert hr; cases pyTruthy r.ttl <;> simp
      by_cases hs : pyTruthy s.ttl = false
      · rcases (pyTruthy_false_iff s.ttl).mp hs with h | h
        · exact Or.inr (Or.inr (Or.inl h))
        · exact Or.inr (Or.inr (Or.inr (Or.inl h)))
      have hs' : pyTruthy s.ttl = true := by
        revert hs; cases pyTruthy s.ttl <;> simp
      refine Or.inr (Or.inr (Or.inr (Or.inr ?_)))
      by_contra hne
      exact h4 (by simp [hr', hs', hne])
  · intro t sub tgt i j
    simp [Record.eq, pyTruthy]

/-- Claim C2, failing input: a record with an absent ttl and one with ttl 42
(same type, subdomain, target) compare equal under `Record.__eq__`, yet their
hash inputs `(type, subdomain, target, ttl or 0)` differ, so `__hash__` is
not consistent with `__eq__`. -/
theorem c2_hash_inconsistent_with_eq :
    Record.eq recNoTtl recTtl42 = true ∧ recNoTtl.hashKey ≠ recTtl42.hashKey := by
  decide

/-- Claim C3, failing input: with `intent = {Record ttl 42}` and
`current = {Record ttl absent}`, the hash-probed set difference of the source
leaves the intent record in `to_add` (and the current one in `to_remove`)
although the two compare equal under the Record equality relation, so
`to_add ∩ current` is not empty under that relation. -/
theorem c3_setdiff_misses_equal_record :
    (reconcile [recTtl42] [recNoTtl]).1 = [recTtl42] ∧
    (reconcile [recTtl42] [recNoTtl]).2 = [recNoTtl] ∧
    Record.eq recTtl42 recNoTtl = true := by
  decide

/-- Claim C10: `Record.__eq__` is not transitive, hence no equivalence
relation: with shared type, subdomain and target, ttl 10 equals ttl absent
and ttl absent equals ttl 20, but ttl 10 does not equal ttl 20. -/
theorem c10_eq_not_transitive :
    ∃ r1 r2 r3 : Record,
      r1.type = r2.type ∧ r2.type = r3.type ∧
      r1.subdomain = r2.subdomain ∧ r2.subdomain = r3.subdomain ∧
      r1.target = r2.target ∧ r2.target = r3.target ∧
      Record.eq r1 r2 = true ∧ Record.eq r2 r3 = true ∧
      Record.eq r1 r3 = false := by
  exact ⟨⟨.A, "foo", "10.0.0.1", 0, some 10⟩, ⟨.A, "foo", "10.0.0.1", 0, none⟩,
    ⟨.A, "foo", "10.0.0.1", 0, some 20⟩, by decide⟩

/-! ## Claims about the reconciler's gateway calls -/

/-- Claim C6: every create call of `reconcile` carries a record of `to_add`
whose type is allowed, every delete call a record of `to_remove` whose type
is allowed, and a record of a disallowed type never appears in any call. -/
theorem c6_type_gating :
    ∀ (intent current : List Record) (r : Record),
      (ApiCall.create r ∈ reconcileCalls intent current →
        r ∈ pyDiff intent current ∧ recAllowed r = true) ∧
      (ApiCall.delete r ∈ reconcileCalls intent current →
        r ∈ pyDiff current intent ∧ recAllowed r = true) ∧
      (recAllowed r = false →
        ApiCall.create r ∉ reconcileCalls intent current ∧
        ApiCall.delete r ∉ reconcileCalls intent current) := by
  intro intent current r
  unfold reconcileCalls reconcile
  simp only [List.mem_append, List.mem_map, List.mem_filter]
  refine ⟨?_, ?_, ?_⟩
  · rintro (⟨a, ⟨ha, hall⟩, hc⟩ | ⟨a, _, hc⟩)
    · cases hc; exact ⟨ha, hall⟩
    · cases hc
  · rintro (⟨a, _, hc⟩ | ⟨a, ⟨ha, hall⟩, hc⟩)
    · cases hc
    · cases hc; exact ⟨ha, hall⟩
  · intro hnot
    constructor
    · rintro (⟨a, ⟨_, hall⟩, hc⟩ | ⟨a, _, hc⟩)
      · cases hc; rw [hnot] at hall; cases hall
      · cases hc
    · rintro (⟨a, _, hc⟩ | ⟨a, ⟨_, hall⟩, hc⟩)
      · cases hc
      · cases hc; rw [hnot] at hall; cases hall

/-- Claim C9: under dry-run mode `add_record` returns the sentinel id 0 and
issues no provider call, `delete_record` issues no provider call, and the
zone refresh of `apply` issues no provider call. -/
theorem c9_dry_run_no_calls :
    ∀ (r : Record) (newId : Int),
      add_record true newId r = (0, []) ∧ delete_record true r = [] ∧
        applyZone true = [] := by
  intro r newId
  exact ⟨rfl, rfl, rfl⟩

/-! ## Claim about ttl defaulting in the parsers -/

/-- Claim C8: a line that parses with an empty ttl capture gets the
configured default TTL unchanged: an absent default leaves the record's ttl
absent, and a present default of 0 gives a present ttl of 0, for each of the
four record parsers. -/
theorem c8_default_ttl_resolution :
    ∀ (line : String) (d : Option Int) (m : RawMatch),
      (matchA line.data = some m → m.ttl = [] →
        parse_a_record line d = some ⟨.A, ⟨m.sub⟩, ⟨m.value⟩, 0, d⟩) ∧
      (matchAAAA line.data = some m → m.ttl = [] →
        parse_aaaa_record line d = some ⟨.AAAA, ⟨m.sub⟩, ⟨m.value⟩, 0, d⟩) ∧
      (matchTXT line.data = some m → m.ttl = [] →
        parse_txt_record line d = some ⟨.TXT, ⟨m.sub⟩, ⟨m.value⟩, 0, d⟩) ∧
      (matchCNAME line.data = some m → m.ttl = [] →
        ∀ r, parse_cname_record line d = some r → r.ttl = d) := by
  intro line d m
  refine ⟨?_, ?_, ?_, ?_⟩
  · intro h ht
    unfold parse_a_record
    rw [h]
    simp [resolveTtl, ht]
  · intro h ht
    unfold parse_aaaa_record
    rw [h]
    simp [resolveTtl, ht]
  · intro h ht
    unfold parse_txt_record
    rw [h]
    simp [resolveTtl, ht]
  · intro h ht r hr
    unfold parse_cname_record at hr
    simp only [h] at hr
    by_cases hg : (isIPv4 m.sub || isIPv6 m.sub || isIPv4 m.value || isIPv6 m.value) = true
    · rw [if_pos hg] at hr
      cases hr
    · rw [if_neg hg] at hr
      cases hr
      simp [resolveTtl, ht]

/-! ## Claim C4: idempotence of reconcile -/

/-- Unfolds membership in a Python set difference. -/
theorem mem_pyDiff (a : Record) (s t : List Record) :
    a ∈ pyDiff s t ↔ a ∈ s ∧ pyMem a t = false := by
  unfold pyDiff
  rw [List.mem_filter]
  simp

/-- Negated membership, hash-key form. -/
theorem pyMem_false_iff (x : Record) (s : List Record) :
    pyMem x s = false ↔ ∀ y ∈ s, x.hashKey ≠ y.hashKey := by
  constructor
  · intro h y hy hk
    have : pyMem x s = true := (pyMem_iff x s).mpr ⟨y, hy, hk⟩
    rw [h] at this
    cases this
  · intro h
    rcases Bool.eq_false_or_eq_true (pyMem x s) with hb | hb
    · obtain ⟨y, hy, hk⟩ := (pyMem_iff x s).mp hb
      exact absurd hk (h y hy)
    · exact hb

/-- A filter by an everywhere-false predicate is empty. -/
theorem filterFalseNil {α : Type} (p : α → Bool) :
    ∀ l : List α, (∀ a ∈ l, p a = false) → l.filter p = []
  | [], _ => rfl
  | a :: l, h => by
    have ha := h a (List.mem_cons_self a l)
    have hl := filterFalseNil p l (fun b hb => h b (List.mem_cons_of_mem a hb))
    simp [List.filter, ha, hl]

/-- Claim C4: reconciliation is idempotent.  Writing `created`/`deleted` for
the records `reconcile intent current` passes to the gateway, reconciling
`intent` against `(current ∪ created) \ deleted` (Python set operations)
issues no call at all. -/
theorem c4_reconcile_idempotent :
    ∀ intent current : List Record,
      reconcile intent
        (pyDiff (pyUnion current (reconcile intent current).1)
          (reconcile intent current).2) = ([], []) := by
  intro intent current
  have hcre : (reconcile intent current).1 = (pyDiff intent current).filter recAllowed := rfl
  have hdel : (reconcile intent current).2 = (pyDiff current intent).filter recAllowed := rfl
  rw [hcre, hdel]
  unfold reconcile
  rw [Prod.mk.injEq]
  constructor
  · -- no create call on the second run
    apply filterFalseNil
    intro r hr
    rw [mem_pyDiff] at hr
    obtain ⟨hri, hrm⟩ := hr
    rcases Bool.eq_false_or_eq_true (recAllowed r) with hall | hall'
    case inr => exact hall'
    exfalso
    have hmem : pyMem r
        (pyDiff (pyUnion current ((pyDiff intent current).filter recAllowed))
          ((pyDiff current intent).filter recAllowed)) = true := by
      rw [pyMem_iff]
      by_cases hc : pyMem r current = true
      · obtain ⟨y, hy, hk⟩ := (pyMem_iff _ _).mp hc
        refine ⟨y, ?_, hk⟩
        rw [mem_pyDiff]
        refine ⟨List.mem_append_left _ hy, ?_⟩
        rw [pyMem_false_iff]
        intro d hd hkd
        have hd' : d ∈ pyDiff current intent := (List.mem_filter.mp hd).1
        have hdm : pyMem d intent = false := ((mem_pyDiff _ _ _).mp hd').2
        have hdt : pyMem d intent = true :=
          (pyMem_iff _ _).mpr ⟨r, hri, (hk.trans hkd).symm⟩
        rw [hdt] at hdm
        cases hdm
      · have hrc : pyMem r current = false := by
          revert hc; cases pyMem r current <;> simp
        have hrA : r ∈ pyDiff intent current := (mem_pyDiff _ _ _).mpr ⟨hri, hrc⟩
        have hrCr : r ∈ (pyDiff intent current).filter recAllowed :=
          List.mem_filter.mpr ⟨hrA, hall⟩
        refine ⟨r, ?_, rfl⟩
        rw [mem_pyDiff]
        constructor
        · refine List.mem_append_right _ ?_
          exact List.mem_filter.mpr ⟨hrCr, by simp [hrc]⟩
        · rw [pyMem_false_iff]
          intro d hd hkd
          have hd' : d ∈ pyDiff current intent := (List.mem_filter.mp hd).1
          have hdm : pyMem d intent = false := ((mem_pyDiff _ _ _).mp hd').2
          have hdt : pyMem d intent = true := (pyMem_iff _ _).mpr ⟨r, hri, hkd.symm⟩
          rw [hdt] at hdm
          cases hdm
    rw [hmem] at hrm
    cases hrm
  · -- no delete call on the second run
    apply filterFalseNil
    intro c hc
    rw [mem_pyDiff] at hc
    obtain ⟨hc', hcm⟩ := hc
    rw [mem_pyDiff] at hc'
    obtain ⟨hcu, hcd⟩ := hc'
    rcases Bool.eq_false_or_eq_true (recAllowed c) with hall | hall'
    case inr => exact hall'
    exfalso
    rcases List.mem_append.mp hcu with hcur | hcf
    · have hcA : c ∈ pyDiff current intent := (mem_pyDiff _ _ _).mpr ⟨hcur, hcm⟩
      have hcD : c ∈ (pyDiff current intent).filter recAllowed :=
        List.mem_filter.mpr ⟨hcA, hall⟩
      have hct : pyMem c ((pyDiff current intent).filter recAllowed) = true :=
        (pyMem_iff _ _).mpr ⟨c, hcD, rfl⟩
      rw [hct] at hcd
      cases hcd
    · have hcC : c ∈ (pyDiff intent current).filter recAllowed :=
        (List.mem_filter.mp hcf).1
      have hcA : c ∈ pyDiff intent current := (List.mem_filter.mp hcC).1
      have hci : c ∈ intent := ((mem_pyDiff _ _ _).mp hcA).1
      have hct : pyMem c intent = true := (pyMem_iff _ _).mpr ⟨c, hci, rfl⟩
      rw [hct] at hcm
      cases hcm

/-! ## List scanning lemmas used by the parser proofs -/

theorem dropWhile_nil_of_all {α : Type} (p : α → Bool) :
    ∀ l : List α, (∀ c ∈ l, p c = true) → l.dropWhile p = []
  | [], _ => rfl
  | a :: l, h => by
    have ha := h a (List.mem_cons_self a l)
    simp only [List.dropWhile, ha]
    exact dropWhile_nil_of_all p l (fun c hc => h c (List.mem_cons_of_mem a hc))

theorem dropWhile_append_all {α : Type} (p : α → Bool) :
    ∀ u v : List α, (∀ c ∈ u, p c = true) → (u ++ v).dropWhile p = v.dropWhile p
  | [], v, _ => rfl
  | a :: u, v, h => by
    have ha := h a (List.mem_cons_self a u)
    simp only [List.cons_append, List.dropWhile, ha]
    exact dropWhile_append_all p u v (fun c hc => h c (List.mem_cons_of_mem a hc))

theorem dropWhile_cons_neg {α : Type} (p : α → Bool) (a : α) (l : List α)
    (h : p a = false) : (a :: l).dropWhile p = a :: l := by
  simp [List.dropWhile, h]

theorem takeWhile_append_all {α : Type} (p : α → Bool) :
    ∀ u v : List α, (∀ c ∈ u, p c = true) → (u ++ v).takeWhile p = u ++ v.takeWhile p
  | [], v, _ => rfl
  | a :: u, v, h => by
    have ha := h a (List.mem_cons_self a u)
    have ih := takeWhile_append_all p u v (fun c hc => h c (List.mem_cons_of_mem a hc))
    rw [List.cons_append, List.takeWhile_cons, ih]
    simp [ha]

theorem takeWhile_cons_neg {α : Type} (p : α → Bool) (a : α) (l : List α)
    (h : p a = false) : (a :: l).takeWhile p = [] := by
  simp [List.takeWhile, h]

theorem mem_takeWhile_pred {α : Type} (p : α → Bool) :
    ∀ l : List α, ∀ c ∈ l.takeWhile p, p c = true
  | [], c, hc => by cases hc
  | a :: l, c, hc => by
    by_cases ha : p a = true
    · rw [List.takeWhile_cons, if_pos ha] at hc
      rcases List.mem_cons.mp hc with h | h
      · rwa [h]
      · exact mem_takeWhile_pred p l c h
    · rw [List.takeWhile_cons, if_neg ha] at hc
      cases hc

theorem take_append_le {α : Type} (j : Nat) :
    ∀ u v : List α, j ≤ u.length → (u ++ v).take j = u.take j := by
  induction j with
  | zero => intro u v _; simp
  | succ n ih =>
    intro u v h
    cases u with
    | nil => simp at h
    | cons a u =>
      simp only [List.cons_append, List.take_succ_cons]
      rw [ih u v (Nat.le_of_succ_le_succ h)]

/-! ## Claim C7: totality of parse_line -/

/-- The first-match-wins chain of `parse_line` returns `None` exactly when
every one of the four grammars fails on the substituted line. -/
theorem parse_line_none_iff (line : String) (ip : Option String) (d : Option Int) :
    parse_line line ip d = none ↔
      (parse_a_record (substLine line ip) d = none ∧
       parse_aaaa_record (substLine line ip) d = none ∧
       parse_txt_record (substLine line ip) d = none ∧
       parse_cname_record (substLine line ip) d = none) := by
  simp only [parse_line]
  cases ha : parse_a_record (substLine line ip) d
  · cases hb : parse_aaaa_record (substLine line ip) d
    · cases hc : parse_txt_record (substLine line ip) d
      · simp [ha, hb, hc]
      · simp [ha, hb, hc]
    · simp [ha, hb]
  · simp [ha]

/-- A line of nothing but whitespace fails `RE_RECORD_A` / `RE_RECORD_AAAA`. -/
theorem matchA_all_ws (l : List Char) (h : ∀ c ∈ l, wsChar c = true) :
    matchA l = none := by
  have h0 : l.dropWhile wsChar = [] := dropWhile_nil_of_all wsChar l h
  simp [matchA, h0, trySub, laxStep, midLax, expectStr]

theorem matchAAAA_all_ws (l : List Char) (h : ∀ c ∈ l, wsChar c = true) :
    matchAAAA l = none := by
  have h0 : l.dropWhile wsChar = [] := dropWhile_nil_of_all wsChar l h
  simp [matchAAAA, h0, trySub, laxStep, midLax, expectStr]

/-- A line of nothing but whitespace fails the CNAME/TXT shape. -/
theorem matchStrictShape_all_ws (tail : List Char → Option (List Char))
    (l : List Char) (h : ∀ c ∈ l, wsChar c = true) :
    matchStrictShape tail l = none := by
  have h0 : l.dropWhile wsChar = [] := dropWhile_nil_of_all wsChar l h
  simp only [matchStrictShape, h0]
  cases hw : (l.takeWhile wsChar).isEmpty <;> simp [trySub, strictStep, midStrict, hw, expectStr]

/-- A line whose first character is `#` fails `RE_RECORD_A`/`RE_RECORD_AAAA`:
`#` is neither whitespace, nor a subdomain character, nor a digit, nor `I`. -/
theorem matchA_hash (cs : List Char) : matchA ('#' :: cs) = none := rfl

theorem matchAAAA_hash (cs : List Char) : matchAAAA ('#' :: cs) = none := rfl

theorem matchStrictShape_hash (tail : List Char → Option (List Char))
    (cs : List Char) : matchStrictShape tail ('#' :: cs) = none := rfl

/-- Claim C7: `parse_line` is a total function into `Option Record` (a record
or the `None` no-match value; the embedding is a pure function, so there are
no exceptions and no side effects); it returns `None` exactly when all four
grammars reject, and blank lines, `#`-comment lines and non-matching lines
therefore all yield `None` uniformly. -/
theorem c7_parse_line_total :
    (∀ (line : String) (ip : Option String) (d : Option Int),
      parse_line line ip d = none ↔
        (parse_a_record (substLine line ip) d = none ∧
         parse_aaaa_record (substLine line ip) d = none ∧
         parse_txt_record (substLine line ip) d = none ∧
         parse_cname_record (substLine line ip) d = none)) ∧
    (∀ (line : String) (ip : Option String) (d : Option Int),
      (∀ c ∈ (substLine line ip).data, wsChar c = true) → parse_line line ip d = none) ∧
    (∀ (line : String) (ip : Option String) (d : Option Int) (cs : List Char),
      (substLine line ip).data = '#' :: cs → parse_line line ip d = none) ∧
    parse_line "" none none = none ∧
    parse_line "# A 10.0.0.1" none none = none := by
  refine ⟨parse_line_none_iff, ?_, ?_, by decide, by decide⟩
  · intro line ip d h
    rw [parse_line_none_iff]
    refine ⟨?_, ?_, ?_, ?_⟩
    · unfold parse_a_record
      rw [matchA_all_ws _ h]
    · unfold parse_aaaa_record
      rw [matchAAAA_all_ws _ h]
    · unfold parse_txt_record
      rw [show matchTXT (substLine line ip).data = none from
        matchStrictShape_all_ws tailTXT _ h]
    · unfold parse_cname_record
      rw [show matchCNAME (substLine line ip).data = none from
        matchStrictShape_all_ws tailCNAME _ h]
  · intro line ip d cs h
    rw [parse_line_none_iff]
    refine ⟨?_, ?_, ?_, ?_⟩
    · unfold parse_a_record
      rw [h, matchA_hash]
    · unfold parse_aaaa_record
      rw [h, matchAAAA_hash]
    · unfold parse_txt_record
      rw [show matchTXT (substLine line ip).data = none by rw [h]; rfl]
    · unfold parse_cname_record
      rw [show matchCNAME (substLine line ip).data = none by rw [h]; rfl]

/-! ## Character-class facts used by claim C5 -/

theorem ws_char_enum (c : Char) (h : wsChar c = true) :
    c = ' ' ∨ c = '\t' ∨ c = '\n' ∨ c = '\r' ∨ c = Char.ofNat 11 ∨ c = Char.ofNat 12 := by
  simpa [wsChar, or_assoc] using h

theorem sub_char_not_ws (c : Char) (h : subChar c = true) : wsChar c = false := by
  rcases Bool.eq_false_or_eq_true (wsChar c) with hw | hw
  · exfalso
    rcases ws_char_enum c hw with h' | h' | h' | h' | h' | h' <;> subst h' <;>
      revert h <;> decide
  · exact hw

theorem digit_not_ws (c : Char) (h : c.isDigit = true) : wsChar c = false := by
  rcases Bool.eq_false_or_eq_true (wsChar c) with hw | hw
  · exfalso
    rcases ws_char_enum c hw with h' | h' | h' | h' | h' | h' <;> subst h' <;>
      revert h <;> decide
  · exact hw

theorem ipv4_char_not_ws (c : Char) (h : (c.isDigit || c = '.') = true) :
    wsChar c = false := by
  rcases Bool.eq_false_or_eq_true (wsChar c) with hw | hw
  · exfalso
    rcases ws_char_enum c hw with h' | h' | h' | h' | h' | h' <;> subst h' <;>
      revert h <;> decide
  · exact hw

theorem hexcolon_char_not_ws (c : Char) (h : hexColonChar c = true) :
    wsChar c = false := by
  rcases Bool.eq_false_or_eq_true (wsChar c) with hw | hw
  · exfalso
    rcases ws_char_enum c hw with h' | h' | h' | h' | h' | h' <;> subst h' <;>
      revert h <;> decide
  · exact hw

theorem digit_sub_char (c : Char) (h : c.isDigit = true) : subChar c = true := by
  simp [subChar, h]

/-! ## Soundness of the matcher building blocks: every successful match
decomposes the input as the regex reads it. -/

theorem expectStr_sound : ∀ pat l r : List Char, expectStr pat l = some r → l = pat ++ r
  | [], _, _, h => by cases h; rfl
  | _ :: _, [], _, h => by cases h
  | c :: cs, x :: xs, r, h => by
    simp only [expectStr] at h
    split_ifs at h with hx
    · subst hx
      rw [List.cons_append, expectStr_sound cs xs r h]

theorem ipv4Group_sound (l r : List Char) (h : ipv4Group l = some r) :
    ∃ d, l = d ++ r ∧ d ≠ [] ∧ ∀ c ∈ d, c.isDigit = true := by
  simp only [ipv4Group] at h
  split_ifs at h with hc
  injection h with h'
  refine ⟨l.takeWhile Char.isDigit, ?_, ?_, mem_takeWhile_pred _ l⟩
  · rw [← h']
    exact (List.takeWhile_append_dropWhile Char.isDigit l).symm
  · intro hnil
    exact hc (Or.inl (by rw [hnil]; rfl))

theorem isIPv4_chars (v : List Char) (h : isIPv4 v = true) :
    v ≠ [] ∧ ∀ c ∈ v, (c.isDigit || c = '.') = true := by
  unfold isIPv4 at h
  have h' := of_decide_eq_true h
  obtain ⟨r1, h1, hrest⟩ := Option.bind_eq_some.mp h'
  obtain ⟨r0, hg1, he1⟩ := Option.bind_eq_some.mp h1
  obtain ⟨r2, h2, hrest2⟩ := Option.bind_eq_some.mp hrest
  obtain ⟨r0b, hg2, he2⟩ := Option.bind_eq_some.mp h2
  obtain ⟨r3, h3, hg4⟩ := Option.bind_eq_some.mp hrest2
  obtain ⟨r0c, hg3, he3⟩ := Option.bind_eq_some.mp h3
  obtain ⟨d1, hv1, hd1ne, hd1⟩ := ipv4Group_sound v r0 hg1
  obtain ⟨d2, hv2, _, hd2⟩ := ipv4Group_sound r1 r0b hg2
  obtain ⟨d3, hv3, _, hd3⟩ := ipv4Group_sound r2 r0c hg3
  obtain ⟨d4, hv4, _, hd4⟩ := ipv4Group_sound r3 [] hg4
  have hr0 : r0 = '.' :: r1 := expectStr_sound ['.'] r0 r1 he1
  have hr0b : r0b = '.' :: r2 := expectStr_sound ['.'] r0b r2 he2
  have hr0c : r0c = '.' :: r3 := expectStr_sound ['.'] r0c r3 he3
  have hv : v = d1 ++ ('.' :: (d2 ++ ('.' :: (d3 ++ ('.' :: (d4 ++ [])))))) := by
    rw [hv1, hr0, hv2, hr0b, hv3, hr0c, hv4]
  constructor
  · intro hnil
    rw [hnil] at hv
    obtain ⟨c, t, hct⟩ := List.exists_cons_of_ne_nil hd1ne
    rw [hct] at hv
    cases hv
  · intro c hc
    rw [hv] at hc
    simp only [List.mem_append, List.mem_cons, List.append_nil] at hc
    rcases hc with h' | h' | h' | h' | h' | h' | h'
    · simp [hd1 c h']
    · simp [h']
    · simp [hd2 c h']
    · simp [h']
    · simp [hd3 c h']
    · simp [h']
    · simp [hd4 c h']

theorem isIPv6_chars (v : List Char) (h : isIPv6 v = true) :
    v ≠ [] ∧ ∀ c ∈ v, hexColonChar c = true := by
  unfold isIPv6 at h
  cases v with
  | nil => cases h
  | cons c0 rest =>
    simp only [Bool.and_eq_true] at h
    refine ⟨by simp, ?_⟩
    intro c hc
    exact List.all_eq_true.mp h.1.1 c hc

theorem trySub_sound (f : Nat → Option RawMatch) :
    ∀ k m, trySub f k = some m → ∃ j, j ≤ k ∧ f j = some m
  | 0, m, h => ⟨0, Nat.le_refl 0, h⟩
  | k + 1, m, h => by
    simp only [trySub] at h
    cases hf : f (k + 1) with
    | some m' =>
      rw [hf] at h
      injection h with h'
      exact ⟨k + 1, Nat.le_refl _, by rw [hf, h']⟩
    | none =>
      rw [hf] at h
      obtain ⟨j, hj, hfj⟩ := trySub_sound f k m (by simpa using h)
      exact ⟨j, Nat.le_succ_of_le hj, hfj⟩

/-- A successful `\s* RE_TTL \s* IN` scan decomposes its input into a
whitespace run, the digit capture, a whitespace run and the literal `IN`. -/
theorem midLax_sound (l b r : List Char) (h : midLax l = some (b, r)) :
    ∃ a c, l = a ++ (b ++ (c ++ (['I', 'N'] ++ r))) ∧
      (∀ x ∈ a, wsChar x = true) ∧ (∀ x ∈ b, Char.isDigit x = true) ∧
      (∀ x ∈ c, wsChar x = true) := by
  simp only [midLax] at h
  have e1 : l = l.takeWhile wsChar ++ l.dropWhile wsChar :=
    (List.takeWhile_append_dropWhile wsChar l).symm
  generalize hl1 : l.dropWhile wsChar = l1 at h
  have e2 : l1 = l1.takeWhile Char.isDigit ++ l1.dropWhile Char.isDigit :=
    (List.takeWhile_append_dropWhile Char.isDigit l1).symm
  generalize hl2 : l1.dropWhile Char.isDigit = l2 at h
  have e3 : l2 = l2.takeWhile wsChar ++ l2.dropWhile wsChar :=
    (List.takeWhile_append_dropWhile wsChar l2).symm
  generalize hl3 : l2.dropWhile wsChar = l3 at h
  cases he : expectStr ['I', 'N'] l3 with
  | none =>
    simp only [he] at h
    exact Option.noConfusion h
  | some r' =>
    simp only [he, Option.some.injEq, Prod.mk.injEq] at h
    obtain ⟨hb, hr⟩ := h
    subst hb
    subst hr
    have hIN : l3 = ['I', 'N'] ++ r' := expectStr_sound ['I', 'N'] l3 r' he
    refine ⟨l.takeWhile wsChar, l2.takeWhile wsChar, ?_, mem_takeWhile_pred _ _,
      mem_takeWhile_pred _ _, mem_takeWhile_pred _ _⟩
    rw [← hIN, ← hl3, ← e3, ← hl2, ← e2, ← hl1, ← e1]

/-- Same decomposition for `\s* RE_TTL \s+ IN` (the nonemptiness facts of the
strict shape are not needed downstream). -/
theorem midStrict_sound (l b r : List Char) (h : midStrict l = some (b, r)) :
    ∃ a c, l = a ++ (b ++ (c ++ (['I', 'N'] ++ r))) ∧
      (∀ x ∈ a, wsChar x = true) ∧ (∀ x ∈ b, Char.isDigit x = true) ∧
      (∀ x ∈ c, wsChar x = true) := by
  simp only [midStrict] at h
  have e1 : l = l.takeWhile wsChar ++ l.dropWhile wsChar :=
    (List.takeWhile_append_dropWhile wsChar l).symm
  generalize hl1 : l.dropWhile wsChar = l1 at h
  have e2 : l1 = l1.takeWhile Char.isDigit ++ l1.dropWhile Char.isDigit :=
    (List.takeWhile_append_dropWhile Char.isDigit l1).symm
  generalize hl2 : l1.dropWhile Char.isDigit = l2 at h
  have e3 : l2 = l2.takeWhile wsChar ++ l2.dropWhile wsChar :=
    (List.takeWhile_append_dropWhile wsChar l2).symm
  generalize hl3 : l2.dropWhile wsChar = l3 at h
  cases he : expectStr ['I', 'N'] l3 with
  | none =>
    simp only [he] at h
    exact Option.noConfusion h
  | some r' =>
    simp only [he] at h
    split_ifs at h
    all_goals
      simp only [Option.some.injEq, Prod.mk.injEq] at h
      obtain ⟨hb, hr⟩ := h
      subst hb
      subst hr
      have hIN : l3 = ['I', 'N'] ++ r' := expectStr_sound ['I', 'N'] l3 r' he
      refine ⟨l.takeWhile wsChar, l2.takeWhile wsChar, ?_, mem_takeWhile_pred _ _,
        mem_takeWhile_pred _ _, mem_takeWhile_pred _ _⟩
      rw [← hIN, ← hl3, ← e3, ← hl2, ← e2, ← hl1, ← e1]

/-- A successful `\s+ A \s+ RE_IPV4 \s*$` scan decomposes its input. -/
theorem tailA_sound (l v : List Char) (h : tailA l = some v) :
    ∃ w1 w2 rest, l = w1 ++ (['A'] ++ (w2 ++ (v ++ rest))) ∧
      w1 ≠ [] ∧ (∀ c ∈ w1, wsChar c = true) ∧ w2 ≠ [] ∧ (∀ c ∈ w2, wsChar c = true) ∧
      (∀ c ∈ rest, wsChar c = true) ∧ isIPv4 v = true := by
  simp only [tailA] at h
  split_ifs at h with hw
  have e1 : l = l.takeWhile wsChar ++ l.dropWhile wsChar :=
    (List.takeWhile_append_dropWhile wsChar l).symm
  generalize hl1 : l.dropWhile wsChar = l1 at h
  cases he : expectStr ['A'] l1 with
  | none =>
    simp only [he] at h
    exact Option.noConfusion h
  | some l2 =>
    simp only [he] at h
    have eA : l1 = ['A'] ++ l2 := expectStr_sound ['A'] l1 l2 he
    have e2 : l2 = l2.takeWhile wsChar ++ l2.dropWhile wsChar :=
      (List.takeWhile_append_dropWhile wsChar l2).symm
    split_ifs at h with hw2 hcond
    simp only [Option.some.injEq] at h
    subst h
    simp only [Bool.and_eq_true] at hcond
    refine ⟨l.takeWhile wsChar, l2.takeWhile wsChar,
      (l2.dropWhile wsChar).dropWhile (fun c => !wsChar c), ?_, ?_,
      mem_takeWhile_pred _ _, ?_, mem_takeWhile_pred _ _, ?_, hcond.1⟩
    · rw [List.takeWhile_append_dropWhile (fun c => !wsChar c) (l2.dropWhile wsChar),
        ← e2, ← eA, ← hl1, ← e1]
    · intro hnil
      exact hw (by rw [hnil]; rfl)
    · intro hnil
      exact hw2 (by rw [hnil]; rfl)
    · intro c hc
      have := List.all_eq_true.mp hcond.2 c hc
      simpa using this

/-- A successful `\s+ AAAA \s+ RE_IPV6 \s*$` scan decomposes its input. -/
theorem tailAAAA_sound (l v : List Char) (h : tailAAAA l = some v) :
    ∃ w1 w2 rest, l = w1 ++ (['A', 'A', 'A', 'A'] ++ (w2 ++ (v ++ rest))) ∧
      w1 ≠ [] ∧ (∀ c ∈ w1, wsChar c = true) ∧ w2 ≠ [] ∧ (∀ c ∈ w2, wsChar c = true) ∧
      (∀ c ∈ rest, wsChar c = true) ∧ isIPv6 v = true := by
  simp only [tailAAAA] at h
  split_ifs at h with hw
  have e1 : l = l.takeWhile wsChar ++ l.dropWhile wsChar :=
    (List.takeWhile_append_dropWhile wsChar l).symm
  generalize hl1 : l.dropWhile wsChar = l1 at h
  cases he : expectStr ['A', 'A', 'A', 'A'] l1 with
  | none =>
    simp only [he] at h
    exact Option.noConfusion h
  | some l2 =>
    simp only [he] at h
    have eA : l1 = ['A', 'A', 'A', 'A'] ++ l2 := expectStr_sound _ l1 l2 he
    have e2 : l2 = l2.takeWhile wsChar ++ l2.dropWhile wsChar :=
      (List.takeWhile_append_dropWhile wsChar l2).symm
    split_ifs at h with hw2 hcond
    simp only [Option.some.injEq] at h
    subst h
    simp only [Bool.and_eq_true] at hcond
    refine ⟨l.takeWhile wsChar, l2.takeWhile wsChar,
      (l2.dropWhile wsChar).dropWhile (fun c => !wsChar c), ?_, ?_,
      mem_takeWhile_pred _ _, ?_, mem_takeWhile_pred _ _, ?_, hcond.1⟩
    · rw [List.takeWhile_append_dropWhile (fun c => !wsChar c) (l2.dropWhile wsChar),
        ← e2, ← eA, ← hl1, ← e1]
    · intro hnil
      exact hw (by rw [hnil]; rfl)
    · intro hnil
      exact hw2 (by rw [hnil]; rfl)
    · intro c hc
      have := List.all_eq_true.mp hcond.2 c hc
      simpa using this

/-- A successful `\s+ CNAME \s+ RE_TARGET \s*$` scan decomposes its input. -/
theorem tailCNAME_sound (l v : List Char) (h : tailCNAME l = some v) :
    ∃ w1 w2 rest, l = w1 ++ (['C', 'N', 'A', 'M', 'E'] ++ (w2 ++ (v ++ rest))) ∧
      w1 ≠ [] ∧ (∀ c ∈ w1, wsChar c = true) ∧ w2 ≠ [] ∧ (∀ c ∈ w2, wsChar c = true) ∧
      (∀ c ∈ rest, wsChar c = true) ∧ (∀ c ∈ v, subChar c = true) := by
  simp only [tailCNAME] at h
  split_ifs at h with hw
  have e1 : l = l.takeWhile wsChar ++ l.dropWhile wsChar :=
    (List.takeWhile_append_dropWhile wsChar l).symm
  generalize hl1 : l.dropWhile wsChar = l1 at h
  cases he : expectStr ['C', 'N', 'A', 'M', 'E'] l1 with
  | none =>
    simp only [he] at h
    exact Option.noConfusion h
  | some l2 =>
    simp only [he] at h
    have eA : l1 = ['C', 'N', 'A', 'M', 'E'] ++ l2 := expectStr_sound _ l1 l2 he
    have e2 : l2 = l2.takeWhile wsChar ++ l2.dropWhile wsChar :=
      (List.takeWhile_append_dropWhile wsChar l2).symm
    split_ifs at h with hw2 hcond
    simp only [Option.some.injEq] at h
    subst h
    refine ⟨l.takeWhile wsChar, l2.takeWhile wsChar,
      (l2.dropWhile wsChar).dropWhile subChar, ?_, ?_,
      mem_takeWhile_pred _ _, ?_, mem_takeWhile_pred _ _, ?_, mem_takeWhile_pred _ _⟩
    · rw [List.takeWhile_append_dropWhile subChar (l2.dropWhile wsChar),
        ← e2, ← eA, ← hl1, ← e1]
    · intro hnil
      exact hw (by rw [hnil]; rfl)
    · intro hnil
      exact hw2 (by rw [hnil]; rfl)
    · intro c hc
      exact List.all_eq_true.mp hcond c hc

/-- Whatever branch of the `RE_TXT` alternation matched, the input holds a
double quote. -/
theorem txtQuoted_has_quote (l v : List Char) (h : txtQuoted l = some v) :
    '"' ∈ l := by
  simp only [txtQuoted] at h
  cases he : expectStr ['"'] l with
  | some l1 =>
    have h1 : l = ['"'] ++ l1 := expectStr_sound _ l l1 he
    rw [h1]
    simp
  | none =>
    simp only [he] at h
    cases he2 : expectStr ['('] l with
    | none =>
      simp only [he2] at h
      exact Option.noConfusion h
    | some l1 =>
      simp only [he2] at h
      cases he3 : expectStr ['"'] (l1.dropWhile wsChar) with
      | none =>
        simp only [he3] at h
        exact Option.noConfusion h
      | some l3 =>
        have h1 : l = ['('] ++ l1 := expectStr_sound _ l l1 he2
        have h3 : l1.dropWhile wsChar = ['"'] ++ l3 := expectStr_sound _ _ l3 he3
        have hq1 : '"' ∈ l1.dropWhile wsChar := by
          rw [h3]
          simp
        have hq2 : '"' ∈ l1 := by
          rw [← List.takeWhile_append_dropWhile wsChar l1]
          exact List.mem_append_right _ hq1
        rw [h1]
        exact List.mem_append_right _ hq2

/-- A successful `\s+ TXT \s+ RE_TXT \s*$` scan means the input holds a
double quote. -/
theorem tailTXT_has_quote (l v : List Char) (h : tailTXT l = some v) :
    '"' ∈ l := by
  simp only [tailTXT] at h
  split_ifs at h with hw
  cases he : expectStr ['T', 'X', 'T'] (l.dropWhile wsChar) with
  | none =>
    simp only [he] at h
    exact Option.noConfusion h
  | some l2 =>
    simp only [he] at h
    split_ifs at h with hw2
    have hq := txtQuoted_has_quote _ _ h
    have h1 : l.dropWhile wsChar = ['T', 'X', 'T'] ++ l2 := expectStr_sound _ _ l2 he
    have hq2 : '"' ∈ l2 := by
      rw [← List.takeWhile_append_dropWhile wsChar l2]
      exact List.mem_append_right _ hq
    have hq3 : '"' ∈ l.dropWhile wsChar := by
      rw [h1]
      exact List.mem_append_right _ hq2
    rw [← List.takeWhile_append_dropWhile wsChar l]
    exact List.mem_append_right _ hq3

/-- A successful run of the longest-first subdomain attempts of an
`\s*IN`-shaped regex splits the (whitespace-stripped) line at the literal
`IN` with the tail matcher succeeding on the rest. -/
theorem laxShape_split (tail : List Char → Option (List Char)) (l0 : List Char)
    (k : Nat) (m : RawMatch) (h : trySub (laxStep tail l0) k = some m) :
    ∃ P r, l0 = P ++ (['I', 'N'] ++ r) ∧ tail r = some m.value := by
  obtain ⟨j, hj, hfj⟩ := trySub_sound _ k m h
  simp only [laxStep] at hfj
  cases hmid : midLax (l0.drop j) with
  | none =>
    simp only [hmid] at hfj
    exact Option.noConfusion hfj
  | some br =>
    obtain ⟨b, r⟩ := br
    simp only [hmid] at hfj
    cases htl : tail r with
    | none =>
      simp only [htl] at hfj
      exact Option.noConfusion hfj
    | some v =>
      simp only [htl, Option.some.injEq] at hfj
      subst hfj
      obtain ⟨a, c, hML, _, _, _⟩ := midLax_sound _ _ _ hmid
      refine ⟨l0.take j ++ (a ++ (b ++ c)), r, ?_, htl⟩
      conv_lhs => rw [← List.take_append_drop j l0, hML]
      simp [List.append_assoc]

/-- `RE_RECORD_A` soundness: a match yields the line's final shape
`... ws A ws ipv4 ws$`. -/
theorem matchA_sound (line : List Char) (m : RawMatch) (h : matchA line = some m) :
    ∃ p w1 w2 rest, line = p ++ (w1 ++ (['A'] ++ (w2 ++ (m.value ++ rest)))) ∧
      w1 ≠ [] ∧ (∀ c ∈ w1, wsChar c = true) ∧ w2 ≠ [] ∧ (∀ c ∈ w2, wsChar c = true) ∧
      (∀ c ∈ rest, wsChar c = true) ∧ isIPv4 m.value = true := by
  simp only [matchA] at h
  obtain ⟨P, r, hsplit, htl⟩ := laxShape_split tailA (line.dropWhile wsChar) _ m h
  obtain ⟨w1, w2, rest, hTL, hw1ne, hw1, hw2ne, hw2, hrest, hip⟩ :=
    tailA_sound r m.value htl
  refine ⟨line.takeWhile wsChar ++ (P ++ ['I', 'N']), w1, w2, rest, ?_,
    hw1ne, hw1, hw2ne, hw2, hrest, hip⟩
  conv_lhs => rw [← List.takeWhile_append_dropWhile wsChar line, hsplit, hTL]
  simp [List.append_assoc]

/-- `RE_RECORD_AAAA` soundness: a match yields the line's final shape
`... ws AAAA ws ipv6 ws$`. -/
theorem matchAAAA_sound (line : List Char) (m : RawMatch) (h : matchAAAA line = some m) :
    ∃ p w1 w2 rest, line = p ++ (w1 ++ (['A', 'A', 'A', 'A'] ++ (w2 ++ (m.value ++ rest)))) ∧
      w1 ≠ [] ∧ (∀ c ∈ w1, wsChar c = true) ∧ w2 ≠ [] ∧ (∀ c ∈ w2, wsChar c = true) ∧
      (∀ c ∈ rest, wsChar c = true) ∧ isIPv6 m.value = true := by
  simp only [matchAAAA] at h
  obtain ⟨P, r, hsplit, htl⟩ := laxShape_split tailAAAA (line.dropWhile wsChar) _ m h
  obtain ⟨w1, w2, rest, hTL, hw1ne, hw1, hw2ne, hw2, hrest, hip⟩ :=
    tailAAAA_sound r m.value htl
  refine ⟨line.takeWhile wsChar ++ (P ++ ['I', 'N']), w1, w2, rest, ?_,
    hw1ne, hw1, hw2ne, hw2, hrest, hip⟩
  conv_lhs => rw [← List.takeWhile_append_dropWhile wsChar line, hsplit, hTL]
  simp [List.append_assoc]

/-- A successful `\s+IN`-shaped match (either the subdomain attempts or the
give-back-leading-whitespace branch) splits the whole line at the literal
`IN`; everything before `IN` is whitespace or subdomain characters. -/
theorem strictShape_split (tail : List Char → Option (List Char))
    (line : List Char) (m : RawMatch) (h : matchStrictShape tail line = some m) :
    ∃ P r, line = P ++ (['I', 'N'] ++ r) ∧
      (∀ c ∈ P, wsChar c = true ∨ subChar c = true) ∧ tail r = some m.value := by
  simp only [matchStrictShape] at h
  cases htry : trySub (strictStep tail (line.dropWhile wsChar))
      ((line.dropWhile wsChar).takeWhile subChar).length with
  | some m' =>
    simp only [htry, Option.some.injEq] at h
    subst h
    obtain ⟨j, hj, hfj⟩ := trySub_sound _ _ _ htry
    simp only [strictStep] at hfj
    cases hmid : midStrict ((line.dropWhile wsChar).drop j) with
    | none =>
      simp only [hmid] at hfj
      exact Option.noConfusion hfj
    | some br =>
      obtain ⟨b, r⟩ := br
      simp only [hmid] at hfj
      cases htl : tail r with
      | none =>
        simp only [htl] at hfj
        exact Option.noConfusion hfj
      | some v =>
        simp only [htl, Option.some.injEq] at hfj
        subst hfj
        obtain ⟨a, c, hML, ha, hb, hc⟩ := midStrict_sound _ _ _ hmid
        refine ⟨line.takeWhile wsChar ++
          ((line.dropWhile wsChar).take j ++ (a ++ (b ++ c))), r, ?_, ?_, htl⟩
        · conv_lhs => rw [← List.takeWhile_append_dropWhile wsChar line,
            ← List.take_append_drop j (line.dropWhile wsChar), hML]
          simp [List.append_assoc]
        · intro x hx
          rcases List.mem_append.mp hx with hx | hx
          · exact Or.inl (mem_takeWhile_pred wsChar line x hx)
          rcases List.mem_append.mp hx with hx | hx
          · right
            have hsub : (line.dropWhile wsChar).take j =
                ((line.dropWhile wsChar).takeWhile subChar).take j := by
              conv_lhs =>
                rw [← List.takeWhile_append_dropWhile subChar (line.dropWhile wsChar)]
              exact take_append_le j _ _ hj
            rw [hsub] at hx
            have hx' : x ∈ (line.dropWhile wsChar).takeWhile subChar :=
              List.take_subset j _ hx
            exact mem_takeWhile_pred _ _ x hx'
          rcases List.mem_append.mp hx with hx | hx
          · exact Or.inl (ha x hx)
          rcases List.mem_append.mp hx with hx | hx
          · exact Or.inr (digit_sub_char x (hb x hx))
          · exact Or.inl (hc x hx)
  | none =>
    simp only [htry] at h
    split_ifs at h with hw0
    cases he : expectStr ['I', 'N'] (line.dropWhile wsChar) with
    | none =>
      simp only [he] at h
      exact Option.noConfusion h
    | some r =>
      simp only [he] at h
      cases htl : tail r with
      | none =>
        simp only [htl] at h
        exact Option.noConfusion h
      | some v =>
        simp only [htl, Option.some.injEq] at h
        subst h
        have hIN : line.dropWhile wsChar = ['I', 'N'] ++ r := expectStr_sound _ _ r he
        refine ⟨line.takeWhile wsChar, r, ?_, ?_, htl⟩
        · conv_lhs => rw [← List.takeWhile_append_dropWhile wsChar line, hIN]
        · intro x hx
          exact Or.inl (mem_takeWhile_pred wsChar line x hx)

/-- `RE_RECORD_CNAME` soundness: every character of a matching line is
whitespace or a subdomain character, and the line ends with
`... ws CNAME ws target ws$`. -/
theorem matchCNAME_sound (line : List Char) (m : RawMatch)
    (h : matchCNAME line = some m) :
    (∀ c ∈ line, wsChar c = true ∨ subChar c = true) ∧
    ∃ p w1 w2 rest,
      line = p ++ (w1 ++ (['C', 'N', 'A', 'M', 'E'] ++ (w2 ++ (m.value ++ rest)))) ∧
      w1 ≠ [] ∧ (∀ c ∈ w1, wsChar c = true) ∧ w2 ≠ [] ∧ (∀ c ∈ w2, wsChar c = true) ∧
      (∀ c ∈ rest, wsChar c = true) ∧ (∀ c ∈ m.value, subChar c = true) := by
  obtain ⟨P, r, hsplit, hP, htl⟩ := strictShape_split tailCNAME line m h
  obtain ⟨w1, w2, rest, hTL, hw1ne, hw1, hw2ne, hw2, hrest, hv⟩ :=
    tailCNAME_sound r m.value htl
  constructor
  · intro c hc
    rw [hsplit] at hc
    rcases List.mem_append.mp hc with hc | hc
    · exact hP c hc
    rcases List.mem_append.mp hc with hc | hc
    · right
      simp only [List.mem_cons, List.not_mem_nil, or_false] at hc
      rcases hc with rfl | rfl <;> decide
    rw [hTL] at hc
    rcases List.mem_append.mp hc with hc | hc
    · exact Or.inl (hw1 c hc)
    rcases List.mem_append.mp hc with hc | hc
    · right
      simp only [List.mem_cons, List.not_mem_nil, or_false] at hc
      rcases hc with rfl | rfl | rfl | rfl | rfl <;> decide
    rcases List.mem_append.mp hc with hc | hc
    · exact Or.inl (hw2 c hc)
    rcases List.mem_append.mp hc with hc | hc
    · exact Or.inr (hv c hc)
    · exact Or.inl (hrest c hc)
  · refine ⟨P ++ ['I', 'N'], w1, w2, rest, ?_, hw1ne, hw1, hw2ne, hw2, hrest, hv⟩
    conv_lhs => rw [hsplit, hTL]
    simp [List.append_assoc]

/-- `RE_RECORD_TXT` soundness: a matching line holds a double quote. -/
theorem matchTXT_has_quote (line : List Char) (m : RawMatch)
    (h : matchTXT line = some m) : '"' ∈ line := by
  obtain ⟨P, r, hsplit, _, htl⟩ := strictShape_split tailTXT line m h
  have hq := tailTXT_has_quote r m.value htl
  rw [hsplit]
  refine List.mem_append_right _ ?_
  exact List.mem_append_right _ hq

/-! ## Last and second-to-last whitespace-separated tokens

`RE_RECORD_A`/`RE_RECORD_AAAA` put their type keyword and value in the last
two whitespace-separated tokens of the line, `RE_RECORD_CNAME` puts `CNAME`
there; the two shapes can therefore never match the same line. -/

/-- The line's last whitespace-separated token, reversed. -/
def lastTok (l : List Char) : List Char :=
  (l.reverse.dropWhile wsChar).takeWhile (fun c => !wsChar c)

/-- The line's second-to-last whitespace-separated token, reversed. -/
def sndTok (l : List Char) : List Char :=
  (((l.reverse.dropWhile wsChar).dropWhile (fun c => !wsChar c)).dropWhile
    wsChar).takeWhile (fun c => !wsChar c)

theorem lastTok_eq (X w tok w5 : List Char)
    (hw : w ≠ []) (hwws : ∀ c ∈ w, wsChar c = true)
    (ht : tok ≠ []) (htn : ∀ c ∈ tok, wsChar c = false)
    (h5 : ∀ c ∈ w5, wsChar c = true) :
    lastTok (X ++ (w ++ (tok ++ w5))) = tok.reverse := by
  have hrt : tok.reverse ≠ [] := fun hh => ht (List.reverse_eq_nil_iff.mp hh)
  obtain ⟨c, t, hct⟩ := List.exists_cons_of_ne_nil hrt
  have hrw : w.reverse ≠ [] := fun hh => hw (List.reverse_eq_nil_iff.mp hh)
  obtain ⟨d, t2, hdt⟩ := List.exists_cons_of_ne_nil hrw
  have hcin : c ∈ tok := List.mem_reverse.mp (by rw [hct]; exact List.mem_cons_self c t)
  have hdin : d ∈ w := List.mem_reverse.mp (by rw [hdt]; exact List.mem_cons_self d t2)
  have hcnw : wsChar c = false := htn c hcin
  have hdws : wsChar d = true := hwws d hdin
  simp only [lastTok, List.reverse_append, List.append_assoc]
  rw [dropWhile_append_all wsChar w5.reverse _
    (fun x hx => h5 x (List.mem_reverse.mp hx))]
  rw [hct, List.cons_append, dropWhile_cons_neg _ _ _ hcnw, ← List.cons_append, ← hct]
  rw [takeWhile_append_all _ tok.reverse _
    (fun x hx => by simp [htn x (List.mem_reverse.mp hx)])]
  rw [hdt, List.cons_append, takeWhile_cons_neg _ _ _ (by simp [hdws])]
  simp

theorem sndTok_eq (X w3 tok2 w tok w5 : List Char)
    (hw3 : w3 ≠ []) (hw3ws : ∀ c ∈ w3, wsChar c = true)
    (ht2 : tok2 ≠ []) (ht2n : ∀ c ∈ tok2, wsChar c = false)
    (hw : w ≠ []) (hwws : ∀ c ∈ w, wsChar c = true)
    (ht : tok ≠ []) (htn : ∀ c ∈ tok, wsChar c = false)
    (h5 : ∀ c ∈ w5, wsChar c = true) :
    sndTok (X ++ (w3 ++ (tok2 ++ (w ++ (tok ++ w5))))) = tok2.reverse := by
  have hrt : tok.reverse ≠ [] := fun hh => ht (List.reverse_eq_nil_iff.mp hh)
  obtain ⟨c, t, hct⟩ := List.exists_cons_of_ne_nil hrt
  have hrw : w.reverse ≠ [] := fun hh => hw (List.reverse_eq_nil_iff.mp hh)
  obtain ⟨d, t2, hdt⟩ := List.exists_cons_of_ne_nil hrw
  have hrt2 : tok2.reverse ≠ [] := fun hh => ht2 (List.reverse_eq_nil_iff.mp hh)
  obtain ⟨e, t3, het⟩ := List.exists_cons_of_ne_nil hrt2
  have hrw3 : w3.reverse ≠ [] := fun hh => hw3 (List.reverse_eq_nil_iff.mp hh)
  obtain ⟨f, t4, hft⟩ := List.exists_cons_of_ne_nil hrw3
  have hcnw : wsChar c = false :=
    htn c (List.mem_reverse.mp (by rw [hct]; exact List.mem_cons_self c t))
  have hdws : wsChar d = true :=
    hwws d (List.mem_reverse.mp (by rw [hdt]; exact List.mem_cons_self d t2))
  have henw : wsChar e = false :=
    ht2n e (List.mem_reverse.mp (by rw [het]; exact List.mem_cons_self e t3))
  have hfws : wsChar f = true :=
    hw3ws f (List.mem_reverse.mp (by rw [hft]; exact List.mem_cons_self f t4))
  simp only [sndTok, List.reverse_append, List.append_assoc]
  rw [dropWhile_append_all wsChar w5.reverse _
    (fun x hx => h5 x (List.mem_reverse.mp hx))]
  rw [hct, List.cons_append, dropWhile_cons_neg _ _ _ hcnw, ← List.cons_append, ← hct]
  rw [dropWhile_append_all _ tok.reverse _
    (fun x hx => by simp [htn x (List.mem_reverse.mp hx)])]
  rw [hdt, List.cons_append, dropWhile_cons_neg _ _ _ (by simp [hdws]),
    ← List.cons_append, ← hdt]
  rw [dropWhile_append_all wsChar w.reverse _
    (fun x hx => hwws x (List.mem_reverse.mp hx))]
  rw [het, List.cons_append, dropWhile_cons_neg _ _ _ henw, ← List.cons_append, ← het]
  rw [takeWhile_append_all _ tok2.reverse _
    (fun x hx => by simp [ht2n x (List.mem_reverse.mp hx)])]
  rw [hft, List.cons_append, takeWhile_cons_neg _ _ _ (by simp [hfws])]
  simp

/-- No line matches both `RE_RECORD_A` and `RE_RECORD_CNAME`: the
second-to-last token would have to be both `A` and `CNAME` (or, with an empty
CNAME target, the last token both an IPv4 literal and `CNAME`). -/
theorem matchA_vs_matchCNAME (line : List Char) (mA mC : RawMatch)
    (hA : matchA line = some mA) (hC : matchCNAME line = some mC) : False := by
  obtain ⟨p, w1, w2, rest, hlineA, hw1ne, hw1, hw2ne, hw2, hrest, hip⟩ :=
    matchA_sound line mA hA
  obtain ⟨-, pC, u1, u2, restC, hlineC, hu1ne, hu1, hu2ne, hu2, hrestC, hvC⟩ :=
    matchCNAME_sound line mC hC
  obtain ⟨hvne, hvchars⟩ := isIPv4_chars mA.value hip
  have hvnw : ∀ c ∈ mA.value, wsChar c = false :=
    fun c hc => ipv4_char_not_ws c (hvchars c hc)
  by_cases hv : mC.value = []
  · have hA1 : lastTok line = mA.value.reverse := by
      rw [hlineA,
        show p ++ (w1 ++ (['A'] ++ (w2 ++ (mA.value ++ rest)))) =
          (p ++ (w1 ++ ['A'])) ++ (w2 ++ (mA.value ++ rest)) by simp [List.append_assoc]]
      exact lastTok_eq _ _ _ _ hw2ne hw2 hvne hvnw hrest
    have hC1 : lastTok line = (['C', 'N', 'A', 'M', 'E'] : List Char).reverse := by
      rw [hlineC, hv,
        show pC ++ (u1 ++ (['C', 'N', 'A', 'M', 'E'] ++ (u2 ++ ([] ++ restC)))) =
          pC ++ (u1 ++ (['C', 'N', 'A', 'M', 'E'] ++ (u2 ++ restC))) by simp]
      exact lastTok_eq pC u1 _ _ hu1ne hu1 (by decide) (by decide)
        (fun c hc => (List.mem_append.mp hc).elim (hu2 c) (hrestC c))
    have hvC' : mA.value = ['C', 'N', 'A', 'M', 'E'] := by
      have h12 := hA1.symm.trans hC1
      have := congrArg List.reverse h12
      simpa using this
    have hcc := hvchars 'C' (by rw [hvC']; exact List.mem_cons_self _ _)
    revert hcc
    decide
  · have hA2 : sndTok line = (['A'] : List Char).reverse := by
      rw [hlineA]
      exact sndTok_eq p w1 ['A'] w2 mA.value rest hw1ne hw1 (by decide) (by decide)
        hw2ne hw2 hvne hvnw hrest
    have hC2 : sndTok line = (['C', 'N', 'A', 'M', 'E'] : List Char).reverse := by
      rw [hlineC]
      exact sndTok_eq pC u1 ['C', 'N', 'A', 'M', 'E'] u2 mC.value restC hu1ne hu1
        (by decide) (by decide) hu2ne hu2 hv
        (fun c hc => sub_char_not_ws c (hvC c hc)) hrestC
    have h12 := hA2.symm.trans hC2
    revert h12
    decide

/-- No line matches both `RE_RECORD_AAAA` and `RE_RECORD_CNAME`. -/
theorem matchAAAA_vs_matchCNAME (line : List Char) (mA mC : RawMatch)
    (hA : matchAAAA line = some mA) (hC : matchCNAME line = some mC) : False := by
  obtain ⟨p, w1, w2, rest, hlineA, hw1ne, hw1, hw2ne, hw2, hrest, hip⟩ :=
    matchAAAA_sound line mA hA
  obtain ⟨-, pC, u1, u2, restC, hlineC, hu1ne, hu1, hu2ne, hu2, hrestC, hvC⟩ :=
    matchCNAME_sound line mC hC
  obtain ⟨hvne, hvchars⟩ := isIPv6_chars mA.value hip
  have hvnw : ∀ c ∈ mA.value, wsChar c = false :=
    fun c hc => hexcolon_char_not_ws c (hvchars c hc)
  by_cases hv : mC.value = []
  · have hA1 : lastTok line = mA.value.reverse := by
      rw [hlineA,
        show p ++ (w1 ++ (['A', 'A', 'A', 'A'] ++ (w2 ++ (mA.value ++ rest)))) =
          (p ++ (w1 ++ ['A', 'A', 'A', 'A'])) ++ (w2 ++ (mA.value ++ rest)) by
            simp [List.append_assoc]]
      exact lastTok_eq _ _ _ _ hw2ne hw2 hvne hvnw hrest
    have hC1 : lastTok line = (['C', 'N', 'A', 'M', 'E'] : List Char).reverse := by
      rw [hlineC, hv,
        show pC ++ (u1 ++ (['C', 'N', 'A', 'M', 'E'] ++ (u2 ++ ([] ++ restC)))) =
          pC ++ (u1 ++ (['C', 'N', 'A', 'M', 'E'] ++ (u2 ++ restC))) by simp]
      exact lastTok_eq pC u1 _ _ hu1ne hu1 (by decide) (by decide)
        (fun c hc => (List.mem_append.mp hc).elim (hu2 c) (hrestC c))
    have hvC' : mA.value = ['C', 'N', 'A', 'M', 'E'] := by
      have h12 := hA1.symm.trans hC1
      have := congrArg List.reverse h12
      simpa using this
    have hcc := hvchars 'C' (by rw [hvC']; exact List.mem_cons_self _ _)
    revert hcc
    decide
  · have hA2 : sndTok line = (['A', 'A', 'A', 'A'] : List Char).reverse := by
      rw [hlineA]
      exact sndTok_eq p w1 ['A', 'A', 'A', 'A'] w2 mA.value rest hw1ne hw1
        (by decide) (by decide) hw2ne hw2 hvne hvnw hrest
    have hC2 : sndTok line = (['C', 'N', 'A', 'M', 'E'] : List Char).reverse := by
      rw [hlineC]
      exact sndTok_eq pC u1 ['C', 'N', 'A', 'M', 'E'] u2 mC.value restC hu1ne hu1
        (by decide) (by decide) hu2ne hu2 hv
        (fun c hc => sub_char_not_ws c (hvC c hc)) hrestC
    have h12 := hA2.symm.trans hC2
    revert h12
    decide

/-- Claim C5: any line that matches the CNAME shape with a subdomain or
target that itself fully matches `RE_IPV4` or `RE_IPV6` is rejected by
`parse_line` as a whole: the earlier A/AAAA/TXT grammars cannot match a
CNAME-shaped line, and `parse_cname_record`'s guard returns `None`. -/
theorem c5_cname_ip_guard_rejects :
    ∀ (line : String) (ip : Option String) (d : Option Int) (m : RawMatch),
      matchCNAME (substLine line ip).data = some m →
      (isIPv4 m.sub || isIPv6 m.sub || isIPv4 m.value || isIPv6 m.value) = true →
      parse_line line ip d = none := by
  intro line ip d m hm hguard
  rw [parse_line_none_iff]
  refine ⟨?_, ?_, ?_, ?_⟩
  · unfold parse_a_record
    cases hA : matchA (substLine line ip).data with
    | none => simp only [hA]
    | some mA => exact (matchA_vs_matchCNAME _ mA m hA hm).elim
  · unfold parse_aaaa_record
    cases hA : matchAAAA (substLine line ip).data with
    | none => simp only [hA]
    | some mA => exact (matchAAAA_vs_matchCNAME _ mA m hA hm).elim
  · unfold parse_txt_record
    cases hT : matchTXT (substLine line ip).data with
    | none => simp only [hT]
    | some mT =>
      exfalso
      have hq := matchTXT_has_quote _ mT hT
      have hcls := (matchCNAME_sound _ m hm).1 '"' hq
      revert hcls
      decide
  · unfold parse_cname_record
    simp only [hm]
    rw [if_pos hguard]

/-- Claim C5, witness: the spec's own scenario line
`muffin IN CNAME 10.0.0.1` matches the CNAME shape with an IPv4-shaped
target, and `parse_line` rejects it. -/
theorem c5_cname_ip_guard_witness :
    parse_line "muffin IN CNAME 10.0.0.1" none (some 0) = none :=
  c5_cname_ip_guard_rejects "muffin IN CNAME 10.0.0.1" none (some 0)
    ⟨['m', 'u', 'f', 'f', 'i', 'n'], [], ['1', '0', '.', '0', '.', '0', '.', '1']⟩
    (by decide) (by decide)
